import Mathlib

/-
Verification of the DialogDebugger dialogue-graph interpreter.

Shallow embedding of the Python sources:
  simulator.py  — GameState, parse_field, load_dialogs, check_condition,
                  apply_effect, show_dialog (its loop body);
  editor.py     — WeightedTextEditor.set_variants / get_variants and the
                  pool split/join done by load_node / save_node;
  visualizer.py — (consulted; the editor pair is the one embedded for the
                  weighted-pool round trip).

Conventions of the embedding:
  * Python ints are ℤ, Python bools are Bool; a dict is an insertion-ordered
    association list; a set is a duplicate-free list.
  * Fallible host operations (int(), float(), KeyError, IndexError) are
    modelled with Option/Except.
  * Python exec on the variables dict is modelled only on the restricted
    statement shapes "Ident = Lit", "Ident += IntLit", "Ident -= IntLit"
    (Lit an integer literal or True/False); any other statement string is
    outside the modelled fragment and the embedded apply_effect returns
    Option.none for it (honest abstention, never a guess).
  * Python floats (weighted-pool weights) are modelled as exact decimals:
    a pair of the integer part and the fraction-digit list.  This matches
    Python's parse/repr behaviour exactly for decimals within double
    precision, which covers every weight the theorems below touch.
-/

namespace DialogDebugger

/-- Value stored in GameState.vars: the Python ints and bools the
simulator puts there. -/
inductive PyVal where
  | int (n : ℤ)
  | bool (b : Bool)
deriving DecidableEq, Repr

/-- Python arithmetic coercion: True is 1 and False is 0 when added. -/
def PyVal.toInt : PyVal → ℤ
  | PyVal.int n => n
  | PyVal.bool b => if b then 1 else 0

/-- Python truthiness for the values above. -/
def PyVal.truthy : PyVal → Bool
  | PyVal.int n => decide (n ≠ 0)
  | PyVal.bool b => b

/-- The variables dict of GameState: insertion-ordered association list. -/
abbrev VarMap := List (String × PyVal)

/-- Dict lookup (d.get(k) / d[k] success case). -/
def VarMap.get? : VarMap → String → Option PyVal
  | [], _ => Option.none
  | (k', v) :: rest, k => if k = k' then some v else VarMap.get? rest k

/-- Dict assignment d[k] = v: overwrite in place when the key exists,
append otherwise (Python dicts keep insertion order). -/
def VarMap.set : VarMap → String → PyVal → VarMap
  | [], k, v => [(k, v)]
  | (k', v') :: rest, k, v =>
      if k = k' then (k', v) :: rest else (k', v') :: VarMap.set rest k v

theorem VarMap.get?_set_self (m : VarMap) (k : String) (v : PyVal) :
    (m.set k v).get? k = some v := by
  induction m with
  | nil => simp [VarMap.set, VarMap.get?]
  | cons hd tl ih =>
      obtain ⟨k', v'⟩ := hd
      by_cases h : k = k' <;> simp [VarMap.set, VarMap.get?, h, ih]

theorem VarMap.get?_set_ne (m : VarMap) (k k' : String) (v : PyVal)
    (h : k' ≠ k) : (m.set k v).get? k' = m.get? k' := by
  induction m with
  | nil => simp [VarMap.set, VarMap.get?, h]
  | cons hd tl ih =>
      obtain ⟨k₀, v₀⟩ := hd
      by_cases h0 : k = k₀
      · subst h0
        simp [VarMap.set, VarMap.get?, h, ih]
      · by_cases h1 : k' = k₀ <;> simp [VarMap.set, VarMap.get?, h0, h1, ih]

/-- GameState from simulator.py: flags (a set), variables (a dict),
inventory (a list). -/
structure GameState where
  flags : List String
  vars : VarMap
  inventory : List String
deriving DecidableEq, Repr

/-- GameState.__init__: the seeded defaults of simulator.py lines 10-17. -/
def initState : GameState :=
  { flags := []
    vars :=
      [("Reputation", PyVal.int 0), ("Sanity", PyVal.int 100),
       ("Night", PyVal.int 1), ("IsAtDock", PyVal.bool true)]
    inventory := [] }

/-- GameState.SetFlag: self.flags.add(flag) (set insertion). -/
def GameState.SetFlag (g : GameState) (flag : String) : GameState :=
  if g.flags.contains flag then g else { g with flags := g.flags ++ [flag] }

/-- GameState.HasFlag: flag in self.flags. -/
def GameState.HasFlag (g : GameState) (flag : String) : Bool :=
  g.flags.contains flag

/-- GameState.AddSanity: self.vars[Sanity] = max(0, min(100,
self.vars[Sanity] + value)).  The subscript read raises KeyError when
the key is absent, hence the Option. -/
def GameState.AddSanity (g : GameState) (value : ℤ) : Option GameState :=
  match g.vars.get? "Sanity" with
  | Option.none => Option.none
  | some x =>
      some { g with
              vars :=
                g.vars.set "Sanity"
                  (PyVal.int (max 0 (min 100 (x.toInt + value)))) }

/-- GameState.__getitem__: self.vars.get(key, 0). -/
def GameState.getitem (g : GameState) (key : String) : PyVal :=
  (g.vars.get? key).getD (PyVal.int 0)

/-- C4: for every integer delta and every starting Sanity value in
[0, 100], AddSanity(delta) sets Sanity to the start plus delta clamped
into [0, 100], and changes no flag, no other variable, and no inventory
entry.  (The clamp max(0, min(100, s + v)) of simulator.py line 26.) -/
theorem addSanity_clamps (g : GameState) (start delta : ℤ)
    (h : g.vars.get? "Sanity" = some (PyVal.int start))
    (h0 : 0 ≤ start) (h100 : start ≤ 100) :
    ∃ g', g.AddSanity delta = some g' ∧
      g'.vars.get? "Sanity" =
        some (PyVal.int (max 0 (min 100 (start + delta)))) ∧
      g'.flags = g.flags ∧ g'.inventory = g.inventory ∧
      ∀ k, k ≠ "Sanity" → g'.vars.get? k = g.vars.get? k := by
  refine ⟨{ g with
            vars :=
              g.vars.set "Sanity"
                (PyVal.int (max 0 (min 100 (start + delta)))) }, ?_, ?_, rfl, rfl, ?_⟩
  · simp [GameState.AddSanity, h, PyVal.toInt]
  · exact VarMap.get?_set_self g.vars "Sanity" _
  · intro k hk
    exact VarMap.get?_set_ne g.vars "Sanity" k _ hk

/-- Witness for C4: the clamp instances named by the spec, AddSanity(-1000)
from the initial Sanity=100 yields 0. -/
theorem addSanity_clamps_witness :
    ∃ g', initState.AddSanity (-1000) = some g' ∧
      g'.vars.get? "Sanity" =
        some (PyVal.int (max 0 (min 100 (100 + (-1000))))) ∧
      g'.flags = initState.flags ∧ g'.inventory = initState.inventory ∧
      ∀ k, k ≠ "Sanity" → g'.vars.get? k = initState.vars.get? k :=
  addSanity_clamps initState 100 (-1000) rfl (by decide) (by decide)

/-- C10: subscript lookup on a game state is total: it returns the stored
value when the key is present in the variable dict and the Python int 0
when it is absent (simulator.py lines 28-29, variables.get(key, 0)). -/
theorem getitem_total (g : GameState) (k : String) :
    (∀ v, g.vars.get? k = some v → g.getitem k = v) ∧
    (g.vars.get? k = Option.none → g.getitem k = PyVal.int 0) := by
  constructor
  · intro v hv
    simp [GameState.getitem, hv]
  · intro hv
    simp [GameState.getitem, hv]

/-- Witness for C10: a present key returns its stored value, an absent key
returns 0. -/
theorem getitem_total_witness :
    initState.getitem "Sanity" = PyVal.int 100 ∧
    initState.getitem "NoSuchVariable" = PyVal.int 0 :=
  ⟨(getitem_total initState "Sanity").1 (PyVal.int 100) rfl,
   (getitem_total initState "NoSuchVariable").2 rfl⟩

/-! String helpers.  Python string operations are modelled on the
character list of the string, which matches Python's code-point view. -/

/-- The single-quote character, written by code point. -/
def squote : Char := Char.ofNat 39

/-- The double-quote character. -/
def dquote : Char := Char.ofNat 34

/-- Leading- and trailing-strip of characters drawn from the set cs,
modelling Python str.strip(chars). -/
def stripCharsBoth (cs : List Char) (l : List Char) : List Char :=
  ((l.dropWhile (fun c => cs.contains c)).reverse.dropWhile
    (fun c => cs.contains c)).reverse

/-- Python str.strip() on a character list (whitespace both ends). -/
def pyStripChars (l : List Char) : List Char :=
  ((l.dropWhile Char.isWhitespace).reverse.dropWhile Char.isWhitespace).reverse

/-- Python str.strip() on a string. -/
def pyStrip (s : String) : String := String.mk (pyStripChars s.data)

/-- List-level startswith. -/
def startsWithL : List Char → List Char → Bool
  | _, [] => true
  | [], _ :: _ => false
  | c :: cs, p :: ps => c = p && startsWithL cs ps

/-- Python s.startswith(p). -/
def pyStartsWith (s p : String) : Bool := startsWithL s.data p.data

/-- Python s.endswith(p). -/
def pyEndsWith (s p : String) : Bool := startsWithL s.data.reverse p.data.reverse

/-- Python slice s[n:] (by code points). -/
def pyDrop (s : String) (n : ℕ) : String := String.mk (s.data.drop n)

/-- Python slice s[:-n] (here used as s[...:-1]). -/
def pyDropRight (s : String) (n : ℕ) : String :=
  String.mk (s.data.take (s.data.length - n))

/-- Index of the first occurrence of sep in l, if any. -/
def findSub (sep : List Char) : List Char → Option ℕ
  | [] => if sep = [] then some 0 else Option.none
  | c :: rest =>
      if startsWithL (c :: rest) sep then some 0
      else
        match findSub sep rest with
        | some i => some (i + 1)
        | Option.none => Option.none

/-- Splits l at sep when sep occurs exactly once: the Python pattern
s.split(sep) matched against a two-element result. -/
def splitTwo (sep l : List Char) : Option (List Char × List Char) :=
  match findSub sep l with
  | Option.none => Option.none
  | some i =>
      let right := l.drop (i + sep.length)
      if findSub sep right = Option.none then some (l.take i, right)
      else Option.none

/-- Digit run to number: helper for int() and float() models. -/
def digitsVal? (l : List Char) : Option ℕ :=
  if l ≠ [] ∧ l.all Char.isDigit then
    some (l.foldl (fun a c => 10 * a + (c.toNat - 48)) 0)
  else Option.none

/-- Python int(s) on a string: strips whitespace, then an optional sign
followed by digits; anything else raises ValueError (Option.none).
Digit-group underscores (a rarely used Python literal feature) are not
modelled. -/
def pyIntOfChars (l : List Char) : Option ℤ :=
  match pyStripChars l with
  | '+' :: rest => (digitsVal? rest).map (fun n => (n : ℤ))
  | '-' :: rest => (digitsVal? rest).map (fun n => -(n : ℤ))
  | l' => (digitsVal? l').map (fun n => (n : ℤ))

/-- Python int(s). -/
def pyInt? (s : String) : Option ℤ := pyIntOfChars s.data

/-! parse_field (simulator.py lines 45-92): decodes a raw CSV field into
None, a string, or a list of strings. -/

/-- The value parse_field produces (plus the numeric case that
check_condition's isinstance test handles). -/
inductive FieldVal where
  | none
  | str (s : String)
  | int (n : ℤ)
  | strlist (xs : List String)
deriving DecidableEq, Repr

/-- The quote-aware comma splitter of parse_field lines 64-84: one pass
over the characters with an in_quotes flag; quote characters open/close
quoting and are consumed; commas outside quotes split; each pushed item
is whitespace-stripped; a trailing empty accumulator is not pushed. -/
def splitQuotedAux : List Char → Option Char → List Char → List (List Char) →
    List (List Char)
  | [], _, current, items =>
      if current ≠ [] then items ++ [pyStripChars current] else items
  | c :: rest, Option.none, current, items =>
      if c = dquote ∨ c = squote then splitQuotedAux rest (some c) current items
      else if c = ',' then
        splitQuotedAux rest Option.none [] (items ++ [pyStripChars current])
      else splitQuotedAux rest Option.none (current ++ [c]) items
  | c :: rest, some q, current, items =>
      if c = q then splitQuotedAux rest Option.none current items
      else splitQuotedAux rest (some q) (current ++ [c]) items

/-- Entry point of the comma splitter. -/
def splitQuoted (inner : List Char) : List (List Char) :=
  splitQuotedAux inner Option.none [] []

/-- parse_field: empty or "-" gives None; a field quoted as a whole gives
the unquoted string; a bracketed field gives the comma-split list with
each item stripped of spaces and quotes; anything else is the stripped
string itself. -/
def parse_field (value : String) : FieldVal :=
  if value = "" ∨ pyStrip value = "-" then FieldVal.none
  else
    let v := pyStrip value
    if (pyStartsWith v (String.mk [dquote]) ∧ pyEndsWith v (String.mk [dquote])) ∨
        (pyStartsWith v (String.mk [squote]) ∧ pyEndsWith v (String.mk [squote])) then
      FieldVal.str (pyDropRight (pyDrop v 1) 1)
    else if pyStartsWith v "[" ∧ pyEndsWith v "]" then
      let inner := pyStrip (pyDropRight (pyDrop v 1) 1)
      if inner = "" then FieldVal.strlist []
      else
        FieldVal.strlist
          ((splitQuoted inner.data).map
            (fun item => String.mk (stripCharsBoth [' ', squote, dquote] item)))
    else FieldVal.str v

/-! check_condition (simulator.py lines 124-150). -/

/-- check_condition, returning the truthiness of the value the Python
function returns.  None (line 127) is available; ANY string returns True
at lines 131-132, which makes the HasFlag branch at line 135 and, for
strings, the eval fallback at line 145 unreachable; a number is its bool
(lines 140-141); a list (the only other value parse_field can produce)
reaches eval(str(condition), ...) at line 145, which rebuilds the same
list from its repr, so its truthiness is non-emptiness. -/
def check_condition (condition : FieldVal) (g : GameState) : Bool :=
  match condition with
  | FieldVal.none => true
  | FieldVal.str _ => true
  | FieldVal.int n => decide (n ≠ 0)
  | FieldVal.strlist xs => decide (xs ≠ [])

/-- C2: the code is fail-OPEN, not fail-closed.  An absent condition is
available (true part of the claim), but a non-empty condition string that
is not in any condition grammar also evaluates to available: lines
131-132 of simulator.py return True for every string.  This contradicts
the claim that an unparseable condition evaluates to unavailable. -/
theorem condition_fail_open :
    check_condition (parse_field "") initState = true ∧
    parse_field "%% not a condition %%" = FieldVal.str "%% not a condition %%" ∧
    check_condition (FieldVal.str "%% not a condition %%") initState = true := by
  refine ⟨rfl, ?_, rfl⟩
  decide

/-- C6: evaluating the condition HasFlag of an unset flag X returns true,
not false: every string condition returns True at simulator.py lines
131-132, so the HasFlag branch at line 135 is dead.  The claim's second
half (true after SetFlag) holds only vacuously, for the same reason. -/
theorem hasflag_condition_true_before_setflag :
    initState.HasFlag "X" = false ∧
    check_condition (parse_field "HasFlag(\x27X\x27)") initState = true ∧
    check_condition (parse_field "HasFlag(\x27X\x27)")
      (initState.SetFlag "X") = true := by
  refine ⟨rfl, ?_, ?_⟩ <;> decide

/-! apply_effect (simulator.py lines 152-185) and its exec fallback. -/

/-- Python identifier test (ASCII fragment). -/
def isPyIdentChars : List Char → Bool
  | [] => false
  | c :: rest => (c.isAlpha || c = '_') && rest.all (fun d => d.isAlphanum || d = '_')

/-- Literal on the right-hand side of a modelled statement: an optionally
signed integer literal or True/False. -/
def pyLiteral? (l : List Char) : Option PyVal :=
  let t := pyStripChars l
  if t = "True".data then some (PyVal.bool true)
  else if t = "False".data then some (PyVal.bool false)
  else
    match t with
    | '+' :: rest => (digitsVal? rest).map (fun n => PyVal.int (n : ℤ))
    | '-' :: rest => (digitsVal? rest).map (fun n => PyVal.int (-(n : ℤ)))
    | l' => (digitsVal? l').map (fun n => PyVal.int (n : ℤ))

/-- exec(stmt, {}, vars) modelled on plain assignments "Ident = Lit":
Python binds the name in the locals dict whether or not it already
exists.  Sum.inl is a successful execution, Sum.inr an exception caught
by apply_effect's handler.  Assumes the left-hand side is not a Python
keyword, which holds at the call site because the statement starts with
one of the four variable-name prefixes. -/
def execAssign (vars : VarMap) (lh rh : List Char) : Option (VarMap ⊕ String) :=
  let ident := pyStripChars lh
  if isPyIdentChars ident then
    match pyLiteral? rh with
    | some v => some (Sum.inl (vars.set (String.mk ident) v))
    | Option.none => Option.none
  else Option.none

/-- exec modelled on augmented assignments "Ident += IntLit" (sign 1) and
"Ident -= IntLit" (sign -1): Python requires the name to exist, raising
NameError (Sum.inr) otherwise, and never creates it. -/
def execAug (vars : VarMap) (lh rh : List Char) (sign : ℤ) :
    Option (VarMap ⊕ String) :=
  let ident := pyStripChars lh
  if isPyIdentChars ident then
    match pyLiteral? rh with
    | some (PyVal.int n) =>
        match vars.get? (String.mk ident) with
        | some old =>
            some (Sum.inl (vars.set (String.mk ident)
              (PyVal.int (old.toInt + sign * n))))
        | Option.none =>
            some (Sum.inr ("name " ++ String.mk ident ++ " is not defined"))
    | some (PyVal.bool _) => Option.none
    | Option.none => Option.none
  else Option.none

/-- exec(effect, {}, game_state.variables) of simulator.py line 181,
modelled on the restricted statement fragment described above; a
statement outside the fragment yields Option.none (the embedding
abstains rather than guessing Python semantics). -/
def execModeled (stmt : String) (vars : VarMap) : Option (VarMap ⊕ String) :=
  match splitTwo "+=".data stmt.data with
  | some (lh, rh) => execAug vars lh rh 1
  | Option.none =>
    match splitTwo "-=".data stmt.data with
    | some (lh, rh) => execAug vars lh rh (-1)
    | Option.none =>
      match splitTwo "=".data stmt.data with
      | some (lh, rh) => execAssign vars lh rh
      | Option.none => Option.none

/-- apply_effect: falsy or "-" effect does nothing; SetFlag(...) and
AddSanity(...) are handled by string surgery on the call text; a
statement starting with one of the four seeded variable names is passed
to exec on the variables dict; ANY other statement falls through
silently, with no log and no error.  The returned list is the log
messages written.  Option.none marks an effect whose exec behaviour is
outside the modelled fragment. -/
def apply_effect (effect : String) (g : GameState) :
    Option (GameState × List String) :=
  if effect = "" ∨ effect = "-" then some (g, [])
  else if pyStartsWith effect "SetFlag(" then
    let flag := String.mk
      (stripCharsBoth [squote, dquote] (pyDropRight (pyDrop effect 8) 1).data)
    some (g.SetFlag flag, ["Set flag: " ++ flag])
  else if pyStartsWith effect "AddSanity(" then
    match pyInt? (pyDropRight (pyDrop effect 10) 1) with
    | Option.none => some (g, ["Sanity error: invalid literal"])
    | some v =>
        match g.AddSanity v with
        | Option.none => some (g, ["Sanity error: KeyError"])
        | some g' => some (g', ["Added sanity: " ++ toString v])
  else if pyStartsWith effect "Reputation" ∨ pyStartsWith effect "Sanity" ∨
      pyStartsWith effect "Night" ∨ pyStartsWith effect "IsAtDock" then
    match execModeled effect g.vars with
    | Option.none => Option.none
    | some (Sum.inl vars') =>
        some ({ g with vars := vars' }, ["Applied effect: " ++ effect])
    | some (Sum.inr msg) => some (g, ["Effect error: " ++ msg])
  else some (g, [])

/-- C1: the effect evaluator can create a new variable.  The statement
"Sanity2 = 5" passes the startswith prefix guard of simulator.py line 180
because "Sanity2" starts with "Sanity", is handed to exec, and exec binds
the fresh name Sanity2 in the variables dict — host-language execution
that enlarges the variable set, contradicting the claimed safety
property. -/
theorem exec_effect_creates_new_variable :
    initState.vars.get? "Sanity2" = Option.none ∧
    ∃ g' logs, apply_effect "Sanity2 = 5" initState = some (g', logs) ∧
      g'.vars.get? "Sanity2" = some (PyVal.int 5) := by
  exact ⟨rfl, _, _, rfl, rfl⟩

/-- C3: an effect statement referencing an unknown variable is NOT
reported: "Unknown = 5" matches no prefix of simulator.py line 180, so
apply_effect falls through, returning with no state change but also with
no EffectError and no log entry at all — the error is silently
swallowed, not surfaced to the caller. -/
theorem unknown_variable_effect_silently_ignored :
    apply_effect "Unknown = 5" initState = some (initState, []) := rfl

/-! load_dialogs (simulator.py lines 94-122). -/

/-- One CSV row as DictReader hands it to load_dialogs. -/
structure Row where
  ID : String
  Speaker : String
  Text : String
  Choices : String
  NextIDs : String
  Condition : String
  Effect : String
  Emotion : String
  AudioID : String
deriving DecidableEq, Repr

/-- The per-id record load_dialogs builds (simulator.py lines 109-118).
choices and next_ids keep the Python shape: the expression
parse_field(...) or [] yields the parsed value when truthy and an empty
list otherwise, so a non-empty unbracketed field stays a plain string. -/
structure DialogRec where
  speaker : String
  text : String
  choices : FieldVal
  next_ids : FieldVal
  condition : FieldVal
  effect : Option String
  emotion : String
  audio_id : Option String
deriving DecidableEq, Repr

/-- Python truthiness of a parse_field result. -/
def fieldTruthy : FieldVal → Bool
  | FieldVal.none => false
  | FieldVal.str s => decide (s ≠ "")
  | FieldVal.int n => decide (n ≠ 0)
  | FieldVal.strlist xs => decide (xs ≠ [])

/-- The pattern parse_field(value) or []. -/
def orEmptyList (v : FieldVal) : FieldVal :=
  if fieldTruthy v then v else FieldVal.strlist []

/-- dialogs[dialog_id] = {...}: dict assignment, silently overwriting an
existing entry for the same id. -/
def dialogsSet : List (ℤ × DialogRec) → ℤ → DialogRec → List (ℤ × DialogRec)
  | [], k, v => [(k, v)]
  | (k', v') :: rest, k, v =>
      if k = k' then (k', v) :: rest else (k', v') :: dialogsSet rest k v

/-- load_dialogs: builds the id-keyed mapping row by row.  A row whose ID
fails int() makes the whole load fail (the except at lines 119-121
re-raises).  There is no duplicate-id check: a repeated id overwrites the
earlier entry. -/
def load_dialogs (rows : List Row) : Except String (List (ℤ × DialogRec)) :=
  rows.foldlM
    (fun m row =>
      match pyInt? row.ID with
      | Option.none => Except.error ("Error loading dialog " ++ row.ID)
      | some dialog_id =>
          Except.ok (dialogsSet m dialog_id
            { speaker := row.Speaker
              text := row.Text
              choices := orEmptyList (parse_field row.Choices)
              next_ids := orEmptyList (parse_field row.NextIDs)
              condition := parse_field row.Condition
              effect := if row.Effect = "-" then Option.none else some row.Effect
              emotion := row.Emotion
              audio_id := if row.AudioID = "-" then Option.none
                          else some row.AudioID }))
    []

/-- C5: loading two rows that carry the same ID is NOT a hard error: the
load succeeds and the second row silently replaces the first in the
mapping (last-wins), producing a complete graph with no error value.
(The editor's save_node does reject a duplicate id, so the loader's
silent overwrite contradicts the enforced-uniqueness design.) -/
theorem duplicate_id_load_last_wins :
    load_dialogs
      [⟨"1", "NPC", "first", "-", "-", "-", "-", "Neutral", "-"⟩,
       ⟨"1", "NPC", "second", "-", "-", "-", "-", "Neutral", "-"⟩] =
    Except.ok
      [(1, ⟨"NPC", "second", FieldVal.strlist [], FieldVal.strlist [],
            FieldVal.none, Option.none, "Neutral", Option.none⟩)] := rfl

/-! show_dialog (simulator.py lines 187-228): one iteration of its outer
while loop, and one iteration of the inner selection loop, as step
functions over an event trace. -/

/-- A node as show_dialog reads it, with list-shaped choices/next_ids
(single-character strings cover the degenerate case where the loader left
a plain string, since Python then iterates its characters). -/
structure Dialog where
  speaker : String
  text : String
  choices : List String
  next_ids : List String
  condition : FieldVal
  effect : Option String
  emotion : String
  audio_id : Option String
deriving DecidableEq, Repr

/-- Observable events of one traversal step, in emission order. -/
inductive Event where
  | condFail
  | textShown (speaker emotion text : String)
  | audioShown (a : String)
  | choicesListed (cs : List (String × String))
  | effectApplied (stmt : String) (logs : List String)
  | invalidChoice
  | notANumber
  | endOfDialog
deriving DecidableEq, Repr

/-- The guard if dialog[effect]: a None or empty effect skips
apply_effect entirely. -/
def effect_gate (eff : Option String) : Option String :=
  match eff with
  | some e => if e = "" then Option.none else some e
  | Option.none => Option.none

/-- Gate plus apply_effect, producing the effectApplied event when the
effect runs.  Option.none when the effect is outside the modelled exec
fragment. -/
def run_effect (eff : Option String) (g : GameState) :
    Option (GameState × List Event) :=
  match effect_gate eff with
  | Option.none => some (g, [])
  | some e =>
      match apply_effect e g with
      | Option.none => Option.none
      | some (g', logs) => some (g', [Event.effectApplied e logs])

/-- Result of feeding one selection input to the inner while-loop body of
simulator.py lines 208-218. -/
inductive SelResult where
  | retry (ev : Event)
  | advance (g' : GameState) (evs : List Event) (next_id : String)
  | crash (g' : GameState) (evs : List Event)
deriving DecidableEq, Repr

/-- One iteration of the selection loop.  A non-numeric input raises
ValueError, caught as a retry prompt; an out-of-range index retries; a
valid index applies the node effect and advances to next_ids[choice]
(crash models the uncaught IndexError when next_ids is shorter than
choices).  On retry nothing is applied and nothing is re-displayed. -/
def selection_step (d : Dialog) (g : GameState) (inp : Option ℤ) :
    Option SelResult :=
  match inp with
  | Option.none => some (SelResult.retry Event.notANumber)
  | some n =>
      if 0 ≤ n - 1 ∧ n - 1 < (d.choices.length : ℤ) then
        match run_effect d.effect g with
        | Option.none => Option.none
        | some (g', evs) =>
            match d.next_ids.get? (n - 1).toNat with
            | some nid => some (SelResult.advance g' evs nid)
            | Option.none => some (SelResult.crash g' evs)
      else some (SelResult.retry Event.invalidChoice)

/-- What the loop does after this step. -/
inductive Cont where
  | goto (next_id : String)
  | ended
  | awaitInput
  | crashed
deriving DecidableEq, Repr

/-- The audio line printed after the text, when present. -/
def audioEvs (d : Dialog) : List Event :=
  match d.audio_id with
  | some a => [Event.audioShown a]
  | Option.none => []

/-- One iteration of show_dialog's outer loop on the current node, with
at most one selection input consumed.  Mirrors simulator.py lines
190-228: condition check (unavailable ends the branch), text display,
then either the player-choice path or the NPC auto path; in both paths
the node effect is applied AFTER the text was displayed. -/
def node_step (d : Dialog) (g : GameState) (inp : Option ℤ) :
    Option (List Event × GameState × Cont) :=
  if check_condition d.condition g = false then
    some ([Event.condFail], g, Cont.ended)
  else
    let shown := Event.textShown d.speaker d.emotion d.text :: audioEvs d
    if d.speaker = "Player" ∧ d.choices ≠ [] then
      let offered := Event.choicesListed (d.choices.zip d.next_ids)
      match selection_step d g inp with
      | Option.none => Option.none
      | some (SelResult.retry ev) =>
          some (shown ++ [offered, ev], g, Cont.awaitInput)
      | some (SelResult.advance g' evs nid) =>
          some (shown ++ offered :: evs, g', Cont.goto nid)
      | some (SelResult.crash g' evs) =>
          some (shown ++ offered :: evs, g', Cont.crashed)
    else
      match run_effect d.effect g with
      | Option.none => Option.none
      | some (g', evs) =>
          match d.next_ids with
          | nid :: _ => some (shown ++ evs, g', Cont.goto nid)
          | [] => some (shown ++ evs ++ [Event.endOfDialog], g', Cont.ended)

/-- A selection input that is a valid 1-based index into the offered
choice list (the code checks 0 <= int(input)-1 < len(choices)). -/
def validIndex (inp : Option ℤ) (numChoices : ℕ) : Prop :=
  ∃ n, inp = some n ∧ 0 ≤ n - 1 ∧ n - 1 < (numChoices : ℤ)

/-- C7: for every selection input that is not a valid index over the
offered choices — non-numeric (Option.none) or out of range — the
selection loop answers with a retry: the engine stays at the same node
awaiting another input, the game state is untouched, no effect is
applied, and the only event is an error prompt, never a re-display of
the node text. -/
theorem invalid_selection_keeps_awaiting (d : Dialog) (g : GameState)
    (inp : Option ℤ) (h : ¬ validIndex inp d.choices.length) :
    selection_step d g inp = some (SelResult.retry Event.notANumber) ∨
    selection_step d g inp = some (SelResult.retry Event.invalidChoice) := by
  match inp with
  | Option.none => exact Or.inl rfl
  | some n =>
      have hn : ¬ (0 ≤ n - 1 ∧ n - 1 < (d.choices.length : ℤ)) :=
        fun hc => h ⟨n, rfl, hc.1, hc.2⟩
      exact Or.inr (by simp only [selection_step]; rw [if_neg hn])

/-- A concrete player node used by the traversal witnesses. -/
def dPlayer : Dialog :=
  { speaker := "Player", text := "Choose", choices := ["Yes", "No"],
    next_ids := ["2", "3"], condition := FieldVal.none,
    effect := some "SetFlag(\x27Chosen\x27)", emotion := "Neutral",
    audio_id := Option.none }

/-- Witness for C7: input 5 against two offered choices retries. -/
theorem invalid_selection_keeps_awaiting_witness :
    selection_step dPlayer initState (some 5) =
      some (SelResult.retry Event.notANumber) ∨
    selection_step dPlayer initState (some 5) =
      some (SelResult.retry Event.invalidChoice) :=
  invalid_selection_keeps_awaiting dPlayer initState (some 5)
    (by
      rintro ⟨n, hn, h1, h2⟩
      have he : (5 : ℤ) = n := Option.some.inj hn
      subst he
      exact absurd h2 (by decide))

/-- Recognizer for effect-application events. -/
def isEffectEv : Event → Bool
  | Event.effectApplied _ _ => true
  | _ => false

/-- Recognizer for text-display events. -/
def isTextEv : Event → Bool
  | Event.textShown _ _ _ => true
  | _ => false

/-- The effect event precedes the text event in a trace. -/
def effect_before_text (evs : List Event) : Prop :=
  ∃ i j, evs.findIdx? isEffectEv = some i ∧ evs.findIdx? isTextEv = some j ∧
    i < j

/-- A concrete NPC node carrying a node-level effect. -/
def dNpc : Dialog :=
  { speaker := "Sailor", text := "Night falls", choices := [],
    next_ids := [], condition := FieldVal.none,
    effect := some "SetFlag(\x27E\x27)", emotion := "Neutral",
    audio_id := Option.none }

/-- The trace one step on dNpc emits. -/
def npcTrace : List Event :=
  [Event.textShown "Sailor" "Neutral" "Night falls",
   Event.effectApplied "SetFlag(\x27E\x27)" ["Set flag: E"],
   Event.endOfDialog]

/-- C8 counterexample: entering a node with a node-level effect displays
the text FIRST and applies the effect afterwards (simulator.py prints at
line 198 and calls apply_effect at lines 212-213 / 221-222), so the
claimed apply-before-display order is false at this node. -/
theorem node_effect_before_text_fails :
    node_step dNpc initState Option.none =
      some (npcTrace, initState.SetFlag "E", Cont.ended) ∧
    npcTrace.findIdx? isTextEv = some 0 ∧
    npcTrace.findIdx? isEffectEv = some 1 ∧
    ¬ effect_before_text npcTrace := by
  refine ⟨rfl, rfl, rfl, ?_⟩
  rintro ⟨i, j, hi, hj, hij⟩
  have hi1 : i = 1 :=
    (Option.some.inj ((show npcTrace.findIdx? isEffectEv = some 1 from
      rfl).symm.trans hi)).symm
  have hj0 : j = 0 :=
    (Option.some.inj ((show npcTrace.findIdx? isTextEv = some 0 from
      rfl).symm.trans hj)).symm
  subst hi1
  subst hj0
  exact absurd hij (by decide)

theorem run_effect_shape (eff : Option String) (g g' : GameState)
    (evs : List Event) (h : run_effect eff g = some (g', evs)) :
    evs = [] ∨ ∃ e l, evs = [Event.effectApplied e l] := by
  unfold run_effect at h
  split at h
  · exact Or.inl ((Prod.mk.injEq .. ▸ Option.some.inj h).2).symm
  · rename_i e heq
    split at h
    · exact absurd h (by simp)
    · rename_i g2 logs heq2
      exact Or.inr ⟨e, logs, ((Prod.mk.injEq .. ▸ Option.some.inj h).2).symm⟩

theorem selection_step_retry_shape (d : Dialog) (g : GameState)
    (inp : Option ℤ) (ev : Event)
    (h : selection_step d g inp = some (SelResult.retry ev)) :
    ev = Event.notANumber ∨ ev = Event.invalidChoice := by
  cases inp with
  | none =>
      simp only [selection_step] at h
      exact Or.inl (SelResult.retry.injEq .. ▸ Option.some.inj h).symm
  | some n =>
      simp only [selection_step] at h
      split at h
      · cases hr : run_effect d.effect g with
        | none => rw [hr] at h; exact absurd h (by simp)
        | some p =>
            obtain ⟨g2, evs2⟩ := p
            rw [hr] at h
            cases hn : d.next_ids.get? (n - 1).toNat with
            | none => rw [hn] at h; exact absurd (Option.some.inj h) (by simp)
            | some nid => rw [hn] at h; exact absurd (Option.some.inj h) (by simp)
      · exact Or.inr (SelResult.retry.injEq .. ▸ Option.some.inj h).symm

theorem selection_step_advance_shape (d : Dialog) (g : GameState)
    (inp : Option ℤ) (g' : GameState) (evs : List Event) (nid : String)
    (h : selection_step d g inp = some (SelResult.advance g' evs nid)) :
    run_effect d.effect g = some (g', evs) := by
  cases inp with
  | none => exact absurd (Option.some.inj h) (by simp [selection_step] at h ⊢)
  | some n =>
      simp only [selection_step] at h
      split at h
      · cases hr : run_effect d.effect g with
        | none => rw [hr] at h; exact absurd h (by simp)
        | some p =>
            obtain ⟨g2, evs2⟩ := p
            rw [hr] at h
            cases hn : d.next_ids.get? (n - 1).toNat with
            | none => rw [hn] at h; exact absurd (Option.some.inj h) (by simp)
            | some nid2 =>
                rw [hn] at h
                have h2 := Option.some.inj h
                cases h2
                rfl
      · exact absurd (Option.some.inj h) (by simp)

theorem selection_step_crash_shape (d : Dialog) (g : GameState)
    (inp : Option ℤ) (g' : GameState) (evs : List Event)
    (h : selection_step d g inp = some (SelResult.crash g' evs)) :
    run_effect d.effect g = some (g', evs) := by
  cases inp with
  | none => exact absurd (Option.some.inj h) (by simp [selection_step] at h ⊢)
  | some n =>
      simp only [selection_step] at h
      split at h
      · cases hr : run_effect d.effect g with
        | none => rw [hr] at h; exact absurd h (by simp)
        | some p =>
            obtain ⟨g2, evs2⟩ := p
            rw [hr] at h
            cases hn : d.next_ids.get? (n - 1).toNat with
            | none =>
                rw [hn] at h
                have h2 := Option.some.inj h
                cases h2
                rfl
            | some nid2 => rw [hn] at h; exact absurd (Option.some.inj h) (by simp)
      · exact absurd (Option.some.inj h) (by simp)

theorem audioEvs_no_effect (d : Dialog) : (audioEvs d).countP isEffectEv = 0 := by
  unfold audioEvs
  cases d.audio_id <;> simp [isEffectEv]

/-- C8 amended: for every node carrying a node-level effect, a traversal
step that applies the effect applies it exactly once and only after the
node's text has been displayed — the trace starts with the node's own
textShown event and holds a single effectApplied event. -/
theorem node_effect_applied_once_after_text (d : Dialog) (g : GameState)
    (inp : Option ℤ) (evs : List Event) (g' : GameState) (c : Cont)
    (h : node_step d g inp = some (evs, g', c))
    (he : evs.countP isEffectEv ≠ 0) :
    evs.countP isEffectEv = 1 ∧
    ∃ rest, evs = Event.textShown d.speaker d.emotion d.text :: rest := by
  unfold node_step at h
  split at h
  · have hevs : evs = [Event.condFail] :=
      ((Prod.mk.injEq ..).mp (Option.some.inj h)).1.symm
    rw [hevs] at he
    simp [List.countP_cons, isEffectEv] at he
  · split at h
    · cases hs : selection_step d g inp with
      | none => rw [hs] at h; exact absurd h (by simp)
      | some r =>
          rw [hs] at h
          cases r with
          | retry ev =>
              have hevs :
                  evs = (Event.textShown d.speaker d.emotion d.text ::
                    audioEvs d) ++
                    [Event.choicesListed (d.choices.zip d.next_ids), ev] :=
                ((Prod.mk.injEq ..).mp (Option.some.inj h)).1.symm
              rcases selection_step_retry_shape d g inp ev hs with hev | hev <;>
                · rw [hevs, hev] at he
                  simp [List.countP_cons, List.countP_append,
                    isEffectEv, audioEvs_no_effect] at he
          | advance g2 evs2 nid =>
              have hevs :
                  evs = (Event.textShown d.speaker d.emotion d.text ::
                    audioEvs d) ++
                    Event.choicesListed (d.choices.zip d.next_ids) :: evs2 :=
                ((Prod.mk.injEq ..).mp (Option.some.inj h)).1.symm
              have hre := selection_step_advance_shape d g inp g2 evs2 nid hs
              rcases run_effect_shape d.effect g g2 evs2 hre with h2 | ⟨e, l, h2⟩
              · rw [hevs, h2] at he
                simp [List.countP_cons, List.countP_append,
                  isEffectEv, audioEvs_no_effect] at he
              · subst h2
                refine ⟨?_, _, hevs⟩
                rw [hevs]
                simp [List.countP_cons, List.countP_append, isEffectEv,
                  audioEvs_no_effect]
          | crash g2 evs2 =>
              have hevs :
                  evs = (Event.textShown d.speaker d.emotion d.text ::
                    audioEvs d) ++
                    Event.choicesListed (d.choices.zip d.next_ids) :: evs2 :=
                ((Prod.mk.injEq ..).mp (Option.some.inj h)).1.symm
              have hre := selection_step_crash_shape d g inp g2 evs2 hs
              rcases run_effect_shape d.effect g g2 evs2 hre with h2 | ⟨e, l, h2⟩
              · rw [hevs, h2] at he
                simp [List.countP_cons, List.countP_append,
                  isEffectEv, audioEvs_no_effect] at he
              · subst h2
                refine ⟨?_, _, hevs⟩
                rw [hevs]
                simp [List.countP_cons, List.countP_append, isEffectEv,
                  audioEvs_no_effect]
    · cases hr : run_effect d.effect g with
      | none => rw [hr] at h; exact absurd h (by simp)
      | some p =>
          obtain ⟨g2, evs2⟩ := p
          rw [hr] at h
          rcases run_effect_shape d.effect g g2 evs2 hr with h2 | ⟨e, l, h2⟩
          · cases hn : d.next_ids with
            | cons nid rest =>
                rw [hn] at h
                have hevs :
                    evs = (Event.textShown d.speaker d.emotion d.text ::
                      audioEvs d) ++ evs2 :=
                  ((Prod.mk.injEq ..).mp (Option.some.inj h)).1.symm
                rw [hevs, h2] at he
                simp [List.countP_cons, List.countP_append,
                  isEffectEv, audioEvs_no_effect] at he
            | nil =>
                rw [hn] at h
                have hevs :
                    evs = (Event.textShown d.speaker d.emotion d.text ::
                      audioEvs d) ++ evs2 ++ [Event.endOfDialog] :=
                  ((Prod.mk.injEq ..).mp (Option.some.inj h)).1.symm
                rw [hevs, h2] at he
                simp [List.countP_cons, List.countP_append,
                  isEffectEv, audioEvs_no_effect] at he
          · subst h2
            cases hn : d.next_ids with
            | cons nid rest =>
                rw [hn] at h
                have hevs :
                    evs = (Event.textShown d.speaker d.emotion d.text ::
                      audioEvs d) ++ [Event.effectApplied e l] :=
                  ((Prod.mk.injEq ..).mp (Option.some.inj h)).1.symm
                refine ⟨?_, _, hevs⟩
                rw [hevs]
                simp [List.countP_cons, List.countP_append, isEffectEv,
                  audioEvs_no_effect]
            | nil =>
                rw [hn] at h
                have hevs :
                    evs = (Event.textShown d.speaker d.emotion d.text ::
                      audioEvs d) ++ [Event.effectApplied e l] ++
                      [Event.endOfDialog] :=
                  ((Prod.mk.injEq ..).mp (Option.some.inj h)).1.symm
                refine ⟨?_, _, hevs⟩
                rw [hevs]
                simp [List.countP_cons, List.countP_append, isEffectEv,
                  audioEvs_no_effect]

/-- Witness for the amended C8: the concrete node dNpc applies its effect
once, after its text. -/
theorem node_effect_applied_once_after_text_witness :
    npcTrace.countP isEffectEv = 1 ∧
    ∃ rest, npcTrace =
      Event.textShown dNpc.speaker dNpc.emotion dNpc.text :: rest :=
  node_effect_applied_once_after_text dNpc initState Option.none npcTrace
    (initState.SetFlag "E") Cont.ended rfl (by decide)

/-! The weighted text pool (editor.py WeightedTextEditor).  set_variants
parses each pool piece with the anchored pattern: a non-empty run of
digits and dots, a literal star, then a non-empty remainder (weight and
text), converting the weight with float(); a piece that does not match
keeps weight 1.0 and its full text.  get_variants re-serializes a row:
the text stripped, the weight omitted when it equals 1.0 and written as
repr(weight) followed by a star otherwise; rows whose stripped text is
empty are dropped.  load_node splits the pool field on the bar character
and save_node joins with it.  Weights are modelled as exact decimals
(integer part, normalized fraction digits); this matches Python float
parse/repr exactly within double precision.  Texts containing a newline
are outside the model (the pattern's dot would reject them). -/

/-- A parsed weight: integer part and fraction digits with no trailing
zero. -/
abbrev PyFloat := ℕ × List ℕ

/-- The weight 1.0, which get_variants omits. -/
def pyOne : PyFloat := (1, [])

/-- The ten ASCII digit characters. -/
def digitChars : List Char := ['0', '1', '2', '3', '4', '5', '6', '7', '8', '9']

/-- ASCII digit test. -/
def isDigitC (c : Char) : Bool := digitChars.contains c

/-- A character the weight pattern accepts: digit or dot. -/
def isWeightChar (c : Char) : Bool := isDigitC c || c = '.'

/-- Digit character to value. -/
def digitVal (c : Char) : ℕ := c.toNat - 48

/-- Value to digit character. -/
def digitChar (d : ℕ) : Char := Char.ofNat (48 + d)

/-- Decimal digit run to number (most significant first; empty gives 0,
as in the integer part of float(".5")). -/
def parseNatChars (l : List Char) : ℕ := Nat.ofDigits 10 ((l.map digitVal).reverse)

/-- Little-endian base-10 digits with explicit fuel (structurally
recursive so that concrete evaluation reduces). -/
def natDigitsLE : ℕ → ℕ → List ℕ
  | 0, _ => []
  | _ + 1, 0 => []
  | fuel + 1, n + 1 => (n + 1) % 10 :: natDigitsLE fuel ((n + 1) / 10)

theorem natDigitsLE_eq_digits (fuel n : ℕ) (h : n ≤ fuel) :
    natDigitsLE fuel n = Nat.digits 10 n := by
  induction fuel generalizing n with
  | zero =>
      have : n = 0 := Nat.le_zero.mp h
      subst this
      simp [natDigitsLE]
  | succ fuel ih =>
      cases n with
      | zero => simp [natDigitsLE]
      | succ m =>
          rw [natDigitsLE, ih ((m + 1) / 10) (by omega),
            Nat.digits_def' (by omega) (Nat.succ_pos m)]

/-- Decimal rendering of a natural number, as repr writes it. -/
def natReprChars (n : ℕ) : List Char :=
  if n = 0 then ['0'] else ((natDigitsLE n n).map digitChar).reverse

/-- Drop trailing zero digits of a fraction, as float normalizes. -/
def trimZeros (l : List ℕ) : List ℕ := (l.reverse.dropWhile (· == 0)).reverse

/-- str.split(c) on a character list: n separators give n+1 pieces. -/
def splitOnChar (c : Char) : List Char → List (List Char)
  | [] => [[]]
  | x :: xs =>
      if x = c then [] :: splitOnChar c xs
      else
        match splitOnChar c xs with
        | [] => [[x]]
        | h :: t => (x :: h) :: t

/-- str-join with a single separator character. -/
def joinChar (c : Char) : List (List Char) → List Char
  | [] => []
  | [p] => p
  | p :: ps => p ++ c :: joinChar c ps

/-- Python float() on a digits-and-dots string: at most one dot and at
least one digit, read as an exact decimal; anything else raises
ValueError (Option.none). -/
def pyFloatOfChars (l : List Char) : Option PyFloat :=
  if l.all isWeightChar then
    match splitOnChar '.' l with
    | [ip] => if ip = [] then Option.none else some (parseNatChars ip, [])
    | [ip, fp] =>
        if ip = [] ∧ fp = [] then Option.none
        else some (parseNatChars ip, trimZeros (fp.map digitVal))
    | _ => Option.none
  else Option.none

/-- repr of a weight: integer part, a dot, then the fraction digits (a
single zero when the fraction is empty). -/
def pyFloatRepr (f : PyFloat) : List Char :=
  natReprChars f.1 ++ '.' :: (if f.2 = [] then ['0'] else f.2.map digitChar)

/-- The weight pattern of set_variants: the maximal leading run of
digits/dots, which must be non-empty and followed by a star and a
non-empty remainder.  Returns the weight text and the remainder. -/
def weightSplit (v : List Char) : Option (List Char × List Char) :=
  match v.dropWhile isWeightChar with
  | star :: t =>
      if star = '*' ∧ v.takeWhile isWeightChar ≠ [] ∧ t ≠ [] then
        some (v.takeWhile isWeightChar, t)
      else Option.none
  | [] => Option.none

/-- One row of set_variants (editor.py lines 76-85): a matching piece
parses its weight with float() — whose ValueError crash is Option.none —
and a non-matching piece keeps weight 1.0 with its whole text. -/
def parse_variant (v : List Char) : Option (PyFloat × List Char) :=
  match weightSplit v with
  | some (w, t) => (pyFloatOfChars w).map (fun f => (f, t))
  | Option.none => some (pyOne, v)

/-- set_variants over the split pieces of a pool field. -/
def set_variants (pieces : List (List Char)) : Option (List (PyFloat × List Char)) :=
  pieces.mapM parse_variant

/-- One row of get_variants (editor.py lines 59-72). -/
def serialize_variant (f : PyFloat) (t : List Char) : Option (List Char) :=
  let t' := pyStripChars t
  if t' = [] then Option.none
  else if f = pyOne then some t'
  else some (pyFloatRepr f ++ '*' :: t')

/-- get_variants over the table rows. -/
def get_variants (entries : List (PyFloat × List Char)) : List (List Char) :=
  entries.filterMap (fun e => serialize_variant e.1 e.2)

/-- load_node's pool split followed by set_variants. -/
def parse_pool (s : List Char) : Option (List (PyFloat × List Char)) :=
  set_variants (splitOnChar '|' s)

/-- get_variants followed by save_node's join. -/
def serialize_pool (entries : List (PyFloat × List Char)) : List Char :=
  joinChar '|' (get_variants entries)

/-- Parse then re-serialize a pool string. -/
def pool_round_trip (s : List Char) : Option (List Char) :=
  (parse_pool s).map serialize_pool

/-- C9 counterexample: round-tripping is NOT idempotent on every valid
pool string.  The entry weight 1 with text starting in a parsable weight
prefix serializes without its weight, and the second parse reads that
prefix as a weight: one round maps the pool to a different pool than two
rounds do. -/
theorem pool_round_trip_not_idempotent :
    pool_round_trip ("1*2*a".data) = some ("2*a".data) ∧
    pool_round_trip ("2*a".data) = some ("2.0*a".data) ∧
    ("2.0*a".data : List Char) ≠ ("2*a".data : List Char) := by
  refine ⟨rfl, rfl, by decide⟩

/-! Supporting lemmas for the round-trip analysis. -/

theorem head?_dropWhile {α : Type} (p : α → Bool) (l : List α) (a : α)
    (h : (l.dropWhile p).head? = some a) : p a = false := by
  have hw := List.head?_dropWhile_not p l
  rw [h] at hw
  exact hw

theorem dropWhile_eq_self_of_head {α : Type} (p : α → Bool) (l : List α)
    (h : ∀ a, l.head? = some a → p a = false) : l.dropWhile p = l := by
  cases l with
  | nil => rfl
  | cons x xs => exact List.dropWhile_cons_of_neg (by simp [h x rfl])

theorem dropWhile_dropWhile {α : Type} (p : α → Bool) (l : List α) :
    (l.dropWhile p).dropWhile p = l.dropWhile p :=
  dropWhile_eq_self_of_head p _ (fun a ha => head?_dropWhile p l a ha)

theorem dropWhile_suffix_exists {α : Type} (p : α → Bool) (l : List α) :
    ∃ t, t ++ l.dropWhile p = l := by
  induction l with
  | nil => exact ⟨[], rfl⟩
  | cons x xs ih =>
      by_cases h : p x = true
      · obtain ⟨t, ht⟩ := ih
        exact ⟨x :: t, by simp [List.dropWhile_cons_of_pos h, ht]⟩
      · exact ⟨[], by simp [List.dropWhile_cons_of_neg (by simpa using h)]⟩

theorem mem_dropWhile {α : Type} (p : α → Bool) (l : List α) (a : α)
    (h : a ∈ l.dropWhile p) : a ∈ l := by
  obtain ⟨t, ht⟩ := dropWhile_suffix_exists p l
  rw [← ht]
  exact List.mem_append_right t h

theorem mem_pyStripChars (l : List Char) (a : Char) (h : a ∈ pyStripChars l) :
    a ∈ l := by
  unfold pyStripChars at h
  rw [List.mem_reverse] at h
  have h2 := mem_dropWhile _ _ _ h
  rw [List.mem_reverse] at h2
  exact mem_dropWhile _ _ _ h2

theorem pyStripChars_idem (l : List Char) :
    pyStripChars (pyStripChars l) = pyStripChars l := by
  unfold pyStripChars
  have step1 :
      ((l.dropWhile Char.isWhitespace).reverse.dropWhile
        Char.isWhitespace).reverse.dropWhile Char.isWhitespace =
      ((l.dropWhile Char.isWhitespace).reverse.dropWhile
        Char.isWhitespace).reverse := by
    cases hz : ((l.dropWhile Char.isWhitespace).reverse.dropWhile
        Char.isWhitespace).reverse with
    | nil => rfl
    | cons a z' =>
        obtain ⟨t, ht⟩ :=
          dropWhile_suffix_exists Char.isWhitespace
            (l.dropWhile Char.isWhitespace).reverse
        have hy : l.dropWhile Char.isWhitespace = a :: z' ++ t.reverse := by
          have h2 := congrArg List.reverse ht
          rw [List.reverse_append, List.reverse_reverse] at h2
          rw [← h2, hz]
        have hwa : Char.isWhitespace a = false := by
          refine head?_dropWhile Char.isWhitespace l a ?_
          rw [hy]
          rfl
        exact List.dropWhile_cons_of_neg (by simp [hwa])
  rw [step1, List.reverse_reverse, dropWhile_dropWhile]

theorem takeWhile_middle (p : Char → Bool) (a : List Char) (x : Char)
    (b : List Char) (ha : ∀ c ∈ a, p c = true) (hx : p x = false) :
    (a ++ x :: b).takeWhile p = a ∧ (a ++ x :: b).dropWhile p = x :: b := by
  induction a with
  | nil =>
      constructor <;> simp [List.takeWhile_cons, List.dropWhile_cons, hx]
  | cons c a' ih =>
      have hc := ha c (by simp)
      have ih2 := ih (fun d hd => ha d (by simp [hd]))
      constructor <;>
        simp [List.takeWhile_cons, List.dropWhile_cons, hc, ih2.1, ih2.2]

theorem splitOnChar_ne_nil (c : Char) (l : List Char) : splitOnChar c l ≠ [] := by
  induction l with
  | nil => simp [splitOnChar]
  | cons x xs ih =>
      by_cases h : x = c
      · simp [splitOnChar, h]
      · rw [splitOnChar, if_neg h]
        cases hs : splitOnChar c xs with
        | nil => simp
        | cons hh tt => simp

theorem splitOnChar_of_not_mem (c : Char) (p : List Char) (hc : c ∉ p) :
    splitOnChar c p = [p] := by
  induction p with
  | nil => rfl
  | cons x xs ih =>
      have hx : x ≠ c := fun he => hc (he ▸ List.mem_cons_self x xs)
      have hxs : c ∉ xs := fun hm => hc (List.mem_cons_of_mem x hm)
      rw [splitOnChar, if_neg hx, ih hxs]

theorem splitOnChar_append (c : Char) (p b : List Char) (hc : c ∉ p) :
    splitOnChar c (p ++ c :: b) = p :: splitOnChar c b := by
  induction p with
  | nil => simp [splitOnChar]
  | cons x xs ih =>
      have hx : x ≠ c := fun he => hc (he ▸ List.mem_cons_self x xs)
      have hxs : c ∉ xs := fun hm => hc (List.mem_cons_of_mem x hm)
      rw [List.cons_append, splitOnChar, if_neg hx, ih hxs]

theorem splitOnChar_joinChar (c : Char) (ps : List (List Char)) (h0 : ps ≠ [])
    (hc : ∀ p ∈ ps, c ∉ p) : splitOnChar c (joinChar c ps) = ps := by
  induction ps with
  | nil => exact absurd rfl h0
  | cons p ps' ih =>
      cases ps' with
      | nil => exact splitOnChar_of_not_mem c p (hc p (by simp))
      | cons q qs =>
          have hj : joinChar c (p :: q :: qs) = p ++ c :: joinChar c (q :: qs) := rfl
          rw [hj, splitOnChar_append c p _ (hc p (by simp)),
            ih (by simp) (fun r hr => hc r (by simp [hr]))]

theorem mem_splitOnChar (c : Char) (l : List Char) :
    ∀ p ∈ splitOnChar c l, ∀ a ∈ p, a ∈ l ∧ a ≠ c := by
  induction l with
  | nil =>
      intro p hp a ha
      simp [splitOnChar] at hp
      subst hp
      simp at ha
  | cons x xs ih =>
      intro p hp a ha
      by_cases h : x = c
      · subst h
        simp [splitOnChar] at hp
        rcases hp with hp | hp
        · subst hp; simp at ha
        · have := ih p hp a ha
          exact ⟨List.mem_cons_of_mem x this.1, this.2⟩
      · rw [splitOnChar, if_neg h] at hp
        cases hs : splitOnChar c xs with
        | nil => exact absurd hs (splitOnChar_ne_nil c xs)
        | cons hh tt =>
            rw [hs] at hp
            rcases List.mem_cons.mp hp with hp | hp
            · subst hp
              rcases List.mem_cons.mp ha with rfl | ha2
              · exact ⟨List.mem_cons_self a xs, h⟩
              · have hhh : hh ∈ splitOnChar c xs := by rw [hs]; simp
                have := ih hh hhh a ha2
                exact ⟨List.mem_cons_of_mem x this.1, this.2⟩
            · have htt : p ∈ splitOnChar c xs := by rw [hs]; simp [hp]
              have := ih p htt a ha
              exact ⟨List.mem_cons_of_mem x this.1, this.2⟩

theorem mapM_option_mem {α β : Type} (f : α → Option β) (l : List α)
    (ys : List β) (h : l.mapM f = some ys) :
    ∀ y ∈ ys, ∃ x ∈ l, f x = some y := by
  induction l generalizing ys with
  | nil =>
      simp only [List.mapM_nil, pure] at h
      cases h
      intro y hy
      simp at hy
  | cons x xs ih =>
      rw [List.mapM_cons] at h
      cases hfx : f x with
      | none => rw [hfx] at h; simp at h
      | some b =>
          rw [hfx] at h
          cases hxs : xs.mapM f with
          | none => rw [hxs] at h; simp at h
          | some bs =>
              rw [hxs] at h
              simp at h
              intro y hy
              rw [← h] at hy
              rcases List.mem_cons.mp hy with rfl | hmem
              · exact ⟨x, by simp, hfx⟩
              · obtain ⟨x', hx', hfx'⟩ := ih bs hxs y hmem
                exact ⟨x', List.mem_cons_of_mem x hx', hfx'⟩

/-! Digit-level lemmas. -/

theorem digitVal_digitChar (d : ℕ) (h : d < 10) :
    digitVal (digitChar d) = d := by
  interval_cases d <;> decide

theorem isDigitC_digitChar (d : ℕ) (h : d < 10) :
    isDigitC (digitChar d) = true := by
  interval_cases d <;> decide

theorem digitVal_lt_ten (c : Char) (h : isDigitC c = true) :
    digitVal c < 10 := by
  have hm : c ∈ digitChars := by
    unfold isDigitC List.contains at h
    exact List.mem_of_elem_eq_true h
  fin_cases hm <;> decide

theorem isDigitC_isWeightChar (c : Char) (h : isDigitC c = true) :
    isWeightChar c = true := by
  unfold isWeightChar
  rw [h]
  rfl

theorem isDigitC_ne_dot (c : Char) (h : isDigitC c = true) : c ≠ '.' := by
  intro he
  subst he
  exact absurd h (by decide)

theorem isDigitC_ne_bar (c : Char) (h : isDigitC c = true) : c ≠ '|' := by
  intro he
  subst he
  exact absurd h (by decide)

theorem isWeightChar_digit_of_ne_dot (c : Char) (hw : isWeightChar c = true)
    (hd : c ≠ '.') : isDigitC c = true := by
  unfold isWeightChar at hw
  rw [Bool.or_eq_true] at hw
  rcases hw with h | h
  · exact h
  · exact absurd (by simpa using h) hd

/-! Rendering and parsing of weights. -/

theorem natReprChars_ne_nil (n : ℕ) : natReprChars n ≠ [] := by
  unfold natReprChars
  split
  · simp
  · rename_i h
    rw [natDigitsLE_eq_digits n n le_rfl]
    have hd : Nat.digits 10 n ≠ [] := Nat.digits_ne_nil_iff_ne_zero.mpr h
    simpa using hd

theorem mem_natReprChars_digit (n : ℕ) (c : Char) (hc : c ∈ natReprChars n) :
    isDigitC c = true := by
  unfold natReprChars at hc
  split at hc
  · simp at hc
    subst hc
    decide
  · rw [natDigitsLE_eq_digits n n le_rfl, List.mem_reverse] at hc
    obtain ⟨d, hd, rfl⟩ := List.mem_map.mp hc
    exact isDigitC_digitChar d (Nat.digits_lt_base (by omega) hd)

theorem parseNat_natRepr (n : ℕ) : parseNatChars (natReprChars n) = n := by
  unfold natReprChars
  split
  · rename_i h
    subst h
    decide
  · rw [natDigitsLE_eq_digits n n le_rfl]
    unfold parseNatChars
    rw [List.map_reverse, List.reverse_reverse, List.map_map]
    have h1 : ∀ d ∈ Nat.digits 10 n, (digitVal ∘ digitChar) d = id d :=
      fun d hd => digitVal_digitChar d (Nat.digits_lt_base (by omega) hd)
    rw [(List.map_congr_left h1).trans (List.map_id _), Nat.ofDigits_digits]

theorem trimZeros_eq_self (l : List ℕ) (h : l.reverse.head? ≠ some 0) :
    trimZeros l = l := by
  unfold trimZeros
  rw [dropWhile_eq_self_of_head _ _ ?_, List.reverse_reverse]
  intro a ha
  by_cases h0 : a = 0
  · subst h0
    exact absurd ha h
  · simp [h0]

theorem mem_trimZeros (l : List ℕ) (d : ℕ) (h : d ∈ trimZeros l) : d ∈ l := by
  unfold trimZeros at h
  rw [List.mem_reverse] at h
  have := mem_dropWhile _ _ _ h
  rwa [List.mem_reverse] at this

theorem trimZeros_no_trailing (l : List ℕ) :
    (trimZeros l).reverse.head? ≠ some 0 := by
  unfold trimZeros
  rw [List.reverse_reverse]
  intro hc
  have := head?_dropWhile (· == 0) l.reverse 0 hc
  simp at this

/-- Normalized weight: fraction digits below ten with no trailing zero —
the invariant float() parsing establishes and repr relies on. -/
def NormW (f : PyFloat) : Prop :=
  (∀ d ∈ f.2, d < 10) ∧ f.2.reverse.head? ≠ some 0

theorem normW_pyOne : NormW pyOne :=
  ⟨by simp [pyOne], by simp [pyOne]⟩

theorem pyFloatOfChars_norm (l : List Char) (f : PyFloat)
    (h : pyFloatOfChars l = some f) : NormW f := by
  unfold pyFloatOfChars at h
  split at h
  · rename_i hall
    split at h
    · split at h
      · exact absurd h (by simp)
      · cases h
        exact ⟨by simp, by simp⟩
    · rename_i ip fp heq
      split at h
      · exact absurd h (by simp)
      · cases h
        constructor
        · intro d hd
          obtain ⟨c, hc, rfl⟩ := List.mem_map.mp (mem_trimZeros _ _ hd)
          have hcl := mem_splitOnChar '.' l fp (by rw [heq]; simp) c hc
          have hwc : isWeightChar c = true := by
            have := List.all_eq_true.mp hall c hcl.1
            simpa using this
          exact digitVal_lt_ten c (isWeightChar_digit_of_ne_dot c hwc hcl.2)
        · exact trimZeros_no_trailing _
    · exact absurd h (by simp)
  · exact absurd h (by simp)

theorem mem_pyFloatRepr_weight (f : PyFloat) (hn : NormW f) :
    ∀ c ∈ pyFloatRepr f, isWeightChar c = true := by
  intro c hc
  unfold pyFloatRepr at hc
  rcases List.mem_append.mp hc with hh | hh
  · exact isDigitC_isWeightChar c (mem_natReprChars_digit f.1 c hh)
  · rcases List.mem_cons.mp hh with rfl | hh2
    · decide
    · split at hh2
      · simp at hh2
        subst hh2
        decide
      · obtain ⟨d, hd, rfl⟩ := List.mem_map.mp hh2
        exact isDigitC_isWeightChar _ (isDigitC_digitChar d (hn.1 d hd))

theorem no_bar_pyFloatRepr (f : PyFloat) (hn : NormW f) : '|' ∉ pyFloatRepr f := by
  intro hmem
  have := mem_pyFloatRepr_weight f hn '|' hmem
  exact absurd this (by decide)

theorem no_dot_natReprChars (n : ℕ) : '.' ∉ natReprChars n := by
  intro hmem
  exact isDigitC_ne_dot '.' (mem_natReprChars_digit n '.' hmem) rfl

theorem pyFloat_repr_roundtrip (f : PyFloat) (hn : NormW f) :
    pyFloatOfChars (pyFloatRepr f) = some f := by
  obtain ⟨f1, f2⟩ := f
  have hfrac_nodot : '.' ∉ (if f2 = [] then ['0'] else f2.map digitChar) := by
    split
    · simp
    · intro hmem
      obtain ⟨d, hd, hdc⟩ := List.mem_map.mp hmem
      have := isDigitC_digitChar d (hn.1 d hd)
      rw [hdc] at this
      exact isDigitC_ne_dot '.' this rfl
  have hall : (pyFloatRepr (f1, f2)).all isWeightChar = true :=
    List.all_eq_true.mpr (fun c hc => by
      simpa using mem_pyFloatRepr_weight (f1, f2) hn c hc)
  unfold pyFloatOfChars
  rw [if_pos hall]
  show (match splitOnChar '.' (pyFloatRepr (f1, f2)) with
    | [ip] => if ip = [] then Option.none else some (parseNatChars ip, [])
    | [ip, fp] =>
        if ip = [] ∧ fp = [] then Option.none
        else some (parseNatChars ip, trimZeros (fp.map digitVal))
    | _ => Option.none) = some (f1, f2)
  unfold pyFloatRepr
  rw [splitOnChar_append '.' _ _ (no_dot_natReprChars f1),
    splitOnChar_of_not_mem '.' _ hfrac_nodot]
  simp only []
  rw [if_neg (by simp [natReprChars_ne_nil f1])]
  rw [parseNat_natRepr f1]
  split
  · rename_i h2
    subst h2
    rfl
  · rename_i h2
    rw [List.map_map]
    have h1 : ∀ d ∈ f2, (digitVal ∘ digitChar) d = id d :=
      fun d hd => digitVal_digitChar d (hn.1 d hd)
    rw [(List.map_congr_left h1).trans (List.map_id _),
      trimZeros_eq_self f2 hn.2]

/-! Variant-level round-trip lemmas. -/

theorem weightSplit_of_middle (w t : List Char)
    (hw : ∀ c ∈ w, isWeightChar c = true) (hwne : w ≠ []) (htne : t ≠ []) :
    weightSplit (w ++ '*' :: t) = some (w, t) := by
  have hmid := takeWhile_middle isWeightChar w '*' t hw (by decide)
  unfold weightSplit
  rw [hmid.2]
  simp [hmid.1, hwne, htne]

theorem weightSplit_sub (v w t : List Char)
    (h : weightSplit v = some (w, t)) : ∀ a ∈ t, a ∈ v := by
  unfold weightSplit at h
  split at h
  · rename_i star t' heq
    split at h
    · cases h
      intro a ha
      exact mem_dropWhile isWeightChar v a (by rw [heq]; simp [ha])
    · exact absurd h (by simp)
  · exact absurd h (by simp)

theorem parse_variant_good (v : List Char) (e : PyFloat × List Char)
    (h : parse_variant v = some e) : (∀ a ∈ e.2, a ∈ v) ∧ NormW e.1 := by
  unfold parse_variant at h
  split at h
  · rename_i w t heq
    cases hf : pyFloatOfChars w with
    | none => rw [hf] at h; exact absurd h (by simp)
    | some f =>
        rw [hf] at h
        simp at h
        cases h
        exact ⟨weightSplit_sub v w t heq, pyFloatOfChars_norm w f hf⟩
  · cases h
    exact ⟨fun a ha => ha, normW_pyOne⟩

theorem serialize_parse_variant (f : PyFloat) (t p : List Char)
    (hg1 : '|' ∉ t) (hg2 : NormW f)
    (hg3 : f = pyOne → weightSplit (pyStripChars t) = Option.none)
    (hs : serialize_variant f t = some p) :
    parse_variant p = some (f, pyStripChars t) ∧
    serialize_variant f (pyStripChars t) = some p ∧ '|' ∉ p := by
  unfold serialize_variant at hs
  by_cases h1 : pyStripChars t = []
  · simp [h1] at hs
  · by_cases h2 : f = pyOne
    · have hp : p = pyStripChars t := by
        simp [h1, h2] at hs
        exact hs.symm
      subst hp
      refine ⟨?_, ?_, ?_⟩
      · unfold parse_variant
        rw [hg3 h2, h2]
      · simp [serialize_variant, pyStripChars_idem, h1, h2]
      · intro hb
        exact hg1 (mem_pyStripChars t '|' hb)
    · have hp : p = pyFloatRepr f ++ '*' :: pyStripChars t := by
        simp [h1, h2] at hs
        exact hs.symm
      subst hp
      refine ⟨?_, ?_, ?_⟩
      · unfold parse_variant
        rw [weightSplit_of_middle _ _ (mem_pyFloatRepr_weight f hg2)
          (by simp [pyFloatRepr]) h1]
        show Option.map (fun x => (x, pyStripChars t))
          (pyFloatOfChars (pyFloatRepr f)) = some (f, pyStripChars t)
        rw [pyFloat_repr_roundtrip f hg2]
        rfl
      · simp [serialize_variant, pyStripChars_idem, h1, h2]
      · intro hb
        rcases List.mem_append.mp hb with hh | hh
        · exact no_bar_pyFloatRepr f hg2 hh
        · rcases List.mem_cons.mp hh with he | he
          · exact absurd he (by decide)
          · exact hg1 (mem_pyStripChars t '|' he)

/-- The entry a serialized row re-parses to: same weight, stripped text. -/
def keptEntry (e : PyFloat × List Char) : Option (PyFloat × List Char) :=
  (serialize_variant e.1 e.2).map (fun _ => (e.1, pyStripChars e.2))

theorem roundtrip_entries (entries : List (PyFloat × List Char))
    (hg : ∀ e ∈ entries, ('|' ∉ e.2) ∧ NormW e.1 ∧
      (e.1 = pyOne → weightSplit (pyStripChars e.2) = Option.none)) :
    (get_variants entries).mapM parse_variant =
      some (entries.filterMap keptEntry) ∧
    get_variants (entries.filterMap keptEntry) = get_variants entries ∧
    (∀ p ∈ get_variants entries, '|' ∉ p) := by
  induction entries with
  | nil => exact ⟨rfl, rfl, by simp [get_variants]⟩
  | cons e es ih =>
      obtain ⟨ih1, ih2, ih3⟩ := ih (fun x hx => hg x (List.mem_cons_of_mem e hx))
      obtain ⟨hge1, hge2, hge3⟩ := hg e (List.mem_cons_self e es)
      cases hse : serialize_variant e.1 e.2 with
      | none =>
          refine ⟨?_, ?_, ?_⟩
          · simpa [get_variants, keptEntry, hse] using ih1
          · simpa [get_variants, keptEntry, hse] using ih2
          · simpa [get_variants, hse] using ih3
      | some p =>
          obtain ⟨hpv, hsv, hbar⟩ :=
            serialize_parse_variant e.1 e.2 p hge1 hge2 hge3 hse
          refine ⟨?_, ?_, ?_⟩
          · rw [show get_variants (e :: es) = p :: get_variants es by
              simp [get_variants, hse]]
            rw [List.mapM_cons, hpv, ih1]
            simp [keptEntry, hse]
          · rw [show (e :: es).filterMap keptEntry =
                (e.1, pyStripChars e.2) :: es.filterMap keptEntry by
              simp [keptEntry, hse]]
            rw [show get_variants ((e.1, pyStripChars e.2) ::
                es.filterMap keptEntry) =
                p :: get_variants (es.filterMap keptEntry) by
              simp [get_variants, hsv]]
            rw [ih2]
            simp [get_variants, hse]
          · intro q hq
            rw [show get_variants (e :: es) = p :: get_variants es by
              simp [get_variants, hse]] at hq
            rcases List.mem_cons.mp hq with rfl | hq2
            · exact hbar
            · exact ih3 q hq2

/-- C9 amended: parse-then-serialize is idempotent on every pool string
on which it is defined, PROVIDED no entry carries weight 1.0 together
with a stripped text that itself begins with a parsable weight prefix
(digits/dots then a star then more text) — exactly the entries the
counterexample exploits, whose omitted weight makes the second parse
read the text's own prefix as a weight.  The newline-free hypothesis
keeps the pool inside the modelled fragment of the editor's pattern
(whose dot does not match a newline). -/
theorem pool_round_trip_idempotent (s r : List Char)
    (entries : List (PyFloat × List Char))
    (hp : parse_pool s = some entries)
    (hnc : ∀ e ∈ entries, e.1 = pyOne →
      weightSplit (pyStripChars e.2) = Option.none)
    (hnl : Char.ofNat 10 ∉ s)
    (hr : serialize_pool entries = r) :
    pool_round_trip r = some r := by
  have hgood : ∀ e ∈ entries, ('|' ∉ e.2) ∧ NormW e.1 ∧
      (e.1 = pyOne → weightSplit (pyStripChars e.2) = Option.none) := by
    intro e he
    unfold parse_pool set_variants at hp
    obtain ⟨v, hv, hpe⟩ := mapM_option_mem parse_variant _ entries hp e he
    obtain ⟨hsub, hnorm⟩ := parse_variant_good v e hpe
    refine ⟨fun hb => ?_, hnorm, hnc e he⟩
    exact (mem_splitOnChar '|' s v hv '|' (hsub '|' hb)).2 rfl
  obtain ⟨hm, hk, hb⟩ := roundtrip_entries entries hgood
  by_cases hpieces : get_variants entries = []
  · have hr0 : r = [] := by
      rw [← hr]
      simp [serialize_pool, hpieces, joinChar]
    subst hr0
    rfl
  · have hsplit : splitOnChar '|' r = get_variants entries := by
      rw [← hr]
      exact splitOnChar_joinChar '|' _ hpieces hb
    unfold pool_round_trip parse_pool set_variants
    rw [hsplit, hm]
    have : serialize_pool (entries.filterMap keptEntry) = r := by
      unfold serialize_pool
      rw [hk]
      exact hr
    rw [Option.map_some']
    exact congrArg some this

/-- Witness for the amended C9: a pool with a non-unit weight and a
plain entry is a fixed point of the round trip. -/
theorem pool_round_trip_idempotent_witness :
    pool_round_trip ("3.0*a|b".data) = some ("3.0*a|b".data) := by
  refine pool_round_trip_idempotent ("3*a|b".data) ("3.0*a|b".data)
    [((3, []), "a".data), (pyOne, "b".data)] rfl ?_ (by decide) rfl
  intro e he h1
  fin_cases he
  · exact absurd h1 (by decide)
  · rfl

end DialogDebugger
